import Mathlib

/-!
Verification of the Redis Trio client in `quart_session.redis_trio`
(`connection.py`, `client.py`, `serialization.py`).

Bytes are modelled as `List Nat` (each entry the value of one byte).
Machine-level strings (`bytes`, decoded ascii text) are byte lists; Python
`int` is `Int`.  Fallible code returns explicit outcome types.  Socket
reads are modelled by a list of chunks (the successive results of
`sock.recv`); exhausting that list, or exhausting recursion fuel, yields
the distinguished outcome `stuck` (the real program would block on the
socket or loop).
-/

namespace RedisTrio

/-- One byte is an ASCII decimal digit (`0`..`9`). -/
def isDigit (c : Nat) : Bool := 48 ≤ c && c ≤ 57

/-- One byte is ASCII whitespace as stripped by Python `int()`:
space, tab, LF, VT, FF, CR. -/
def isPySpace (c : Nat) : Bool :=
  c == 32 || c == 9 || c == 10 || c == 11 || c == 12 || c == 13

/-- Digit-run parser for Python `int()`: a nonempty digit sequence in which a
single underscore may occur between two digits.  `acc` is the value of the
digits already consumed. -/
def pyDigitsAux : List Nat → Nat → Option Nat
  | [], acc => some acc
  | c :: rest, acc =>
    if isDigit c then pyDigitsAux rest (acc * 10 + (c - 48))
    else if c == 95 then
      match rest with
      | d :: rest2 => if isDigit d then pyDigitsAux rest2 ((acc * 10 + (d - 48))) else none
      | [] => none
    else none

/-- Unsigned digit string accepted by Python `int()` (after sign removal). -/
def pyDigits : List Nat → Option Nat
  | c :: rest => if isDigit c then pyDigitsAux rest (c - 48) else none
  | [] => none

/-- Strip leading and trailing Python whitespace. -/
def stripWS (l : List Nat) : List Nat :=
  ((l.dropWhile (fun c => isPySpace c)).reverse.dropWhile (fun c => isPySpace c)).reverse

/-- `int(bs)` on a bytes object: strip whitespace, optional sign, digits
(single underscores allowed between digits); `none` models `ValueError`. -/
def pyInt (l : List Nat) : Option Int :=
  match stripWS l with
  | 43 :: rest => (pyDigits rest).map (fun n => (n : Int))
  | 45 :: rest => (pyDigits rest).map (fun n => -(n : Int))
  | other => (pyDigits other).map (fun n => (n : Int))

/-- `data.index(b"\r\n")`: index of the first occurrence of the two-byte
sequence CR LF, `none` when absent (Python raises `ValueError`). -/
def findCRLF : List Nat → Option Nat
  | [] => none
  | [_] => none
  | a :: b :: rest =>
    if a == 13 && b == 10 then some 0
    else (findCRLF (b :: rest)).map (fun n => n + 1)

/-- Effective start/stop position of a Python slice index `i` on a sequence of
length `n` (negative indices count from the end, clamped into range). -/
def pyIdx (n : Nat) (i : Int) : Nat :=
  if i < 0 then (max 0 ((n : Int) + i)).toNat else min i.toNat n

/-- Python `l[:i]`. -/
def pySliceTo (l : List Nat) (i : Int) : List Nat := l.take (pyIdx l.length i)

/-- Python `l[i:]`. -/
def pySliceFrom (l : List Nat) (i : Int) : List Nat := l.drop (pyIdx l.length i)

/-- Byte values of an ASCII Lean string (used only to write concrete test
inputs compactly). -/
def strB (s : String) : List Nat := s.data.map Char.toNat

/-- A decoded Redis reply value as returned by `RedisConnection.parse`:
a bytes object (status line or bulk payload), an `int`, `None`
(null bulk string / null array), or a list of reply values. -/
inductive RValue where
  | bytesV : List Nat → RValue
  | intV : Int → RValue
  | nullV : RValue
  | arrV : List RValue → RValue

/-- Exceptions that can escape the parsing layer: the three library error
classes, plus the built-in `ValueError` (from `int()`) and
`UnicodeDecodeError` (from `.decode("ascii")`). -/
inductive PErr where
  | protocolError : List Nat → PErr
  | responseError : List Nat → PErr
  | responseTypeError : List Nat → PErr
  | valueError : PErr
  | unicodeError : PErr

/-- Outcome of `parse` / `parse_array`: a decoded value together with the
unconsumed buffer bytes and the not-yet-received chunks; the `ReadMore`
signal; a raised exception; or `stuck` (out of fuel / blocked on a read). -/
inductive POut where
  | ok : RValue → List Nat → List (List Nat) → POut
  | readMore : POut
  | err : PErr → POut
  | stuck : POut

/-- `known_prefixes = {SP, EP, IP, BP, AP}` membership test. -/
def knownPrefixB (c : Nat) : Bool :=
  c == 43 || c == 45 || c == 58 || c == 36 || c == 42

/-- The byte string `"WRONGTYPE"` (note: no trailing space — the code tests
`error.startswith("WRONGTYPE")`). -/
def wrongtypeTok : List Nat := [87, 82, 79, 78, 71, 84, 89, 80, 69]

/-- The byte string `"ERR"` (again no trailing space). -/
def errTok : List Nat := [69, 82, 82]

/-- Classification of an error line, from the `EP` branch of
`RedisConnection.parse`: decode ascii, then strip a leading `WRONGTYPE`
(10 characters dropped) or `ERR` (4 characters dropped) token. -/
def classifyError (error : List Nat) : PErr :=
  if error.all (fun c => c < 128) then
    if wrongtypeTok.isPrefixOf error then .responseTypeError (error.drop 10)
    else if errTok.isPrefixOf error then .responseError (error.drop 4)
    else .responseError error
  else .unicodeError

/-- Call descriptor for the mutually recursive pair
`RedisConnection.parse` / `RedisConnection.parse_array`. -/
inductive Call where
  | pc : List Nat → List (List Nat) → Call
  | ac : Int → List RValue → List Nat → List (List Nat) → Call

/-- Fuel-indexed interpreter for `RedisConnection.parse` (`.pc data stream`)
and the `while` loop of `RedisConnection.parse_array`
(`.ac length items data stream`), transcribed from `connection.py`.
`stream` is the list of pending `sock.recv` results. -/
def run : Nat → Call → POut
  | 0, _ => .stuck
  | fuel + 1, .pc data stream =>
    match findCRLF data with
    | none => .readMore
    | some index =>
      let b0 := data.headD 0
      if !(knownPrefixB b0) then .err (.protocolError data)
      else if b0 == 43 then
        .ok (.bytesV ((data.take index).drop 1)) (data.drop (index + 2)) stream
      else if b0 == 45 then
        .err (classifyError ((data.take index).drop 1))
      else if b0 == 58 then
        match pyInt ((data.take index).drop 1) with
        | none => .err .valueError
        | some i => .ok (.intV i) (data.drop (index + 2)) stream
      else if b0 == 36 then
        match pyInt ((data.take index).drop 1) with
        | none => .err .valueError
        | some length =>
          let data2 := data.drop (index + 2)
          if length == -1 then .ok .nullV data2 stream
          else if (data2.length : Int) < length + 2 then .readMore
          else .ok (.bytesV (pySliceTo data2 length)) (pySliceFrom data2 (length + 2)) stream
      else
        match pyInt ((data.take index).drop 1) with
        | none => .err .valueError
        | some length =>
          let data2 := data.drop (index + 2)
          if length == -1 then .ok .nullV data2 stream
          else run fuel (.ac length [] data2 stream)
  | fuel + 1, .ac length items data stream =>
    if (items.length : Int) < length then
      if data.isEmpty then
        match stream with
        | [] => .stuck
        | c :: rest => run fuel (.ac length items (data ++ c) rest)
      else
        match run fuel (.pc data stream) with
        | .ok item data' stream' => run fuel (.ac length (items ++ [item]) data' stream')
        | .readMore =>
          match stream with
          | [] => .stuck
          | c :: rest => run fuel (.ac length items (data ++ c) rest)
        | .err e => .err e
        | .stuck => .stuck
    else .ok (.arrV items) data stream

/-- `RedisConnection.parse data` with pending socket chunks `stream`. -/
def parseF (fuel : Nat) (data : List Nat) (stream : List (List Nat)) : POut :=
  run fuel (.pc data stream)

/-- The `while` loop of `RedisConnection.parse_array`. -/
def parseArrayLoop (fuel : Nat) (length : Int) (items : List RValue)
    (data : List Nat) (stream : List (List Nat)) : POut :=
  run fuel (.ac length items data stream)

/-- Outcome of `RedisConnection.process_response`: the decoded reply and the
chunks not yet received (note: the unconsumed buffer bytes of the parse do
not appear — `process_response` drops them). -/
inductive ROut where
  | ok : RValue → List (List Nat) → ROut
  | err : PErr → ROut
  | stuck : ROut

/-- The `while True` retry loop inside `RedisConnection.process_response`:
parse the buffered `data`; on `ReadMore` append one more `recv` result and
retry.  On success the remainder returned by `parse` is discarded
(`item, _ = await self.parse(data)`). -/
def processLoop : Nat → List Nat → List (List Nat) → ROut
  | 0, _, _ => .stuck
  | fuel + 1, data, stream =>
    match run fuel (.pc data stream) with
    | .ok item _ stream' => .ok item stream'
    | .readMore =>
      match stream with
      | [] => .stuck
      | c :: rest => processLoop fuel (data ++ c) rest
    | .err e => .err e
    | .stuck => .stuck

/-- `RedisConnection.process_response`: one fresh `recv` provides the initial
buffer, then the retry loop runs. -/
def processResponse : Nat → List (List Nat) → ROut
  | _, [] => .stuck
  | fuel, c :: rest => processLoop fuel c rest

/-! ### Serialization (`serialization.py`) -/

/-- The `escapes` table: NUL, LF, CR, backslash and double quote map to their
escape sequences; every other byte is absent from the table. -/
def escapes (c : Nat) : Option (List Nat) :=
  if c == 0 then some [92, 120, 48, 48]
  else if c == 10 then some [92, 110]
  else if c == 13 then some [92, 114]
  else if c == 92 then some [92, 92]
  else if c == 34 then some [92, 34]
  else none

/-- The `escape` generator: each byte is replaced by its escape sequence when
present in the table, otherwise passed through. -/
def escape : List Nat → List Nat
  | [] => []
  | c :: rest =>
    (match escapes c with
     | some e => e
     | none => [c]) ++ escape rest

/-- `quote`: wrap the escaped bytes in double quotes. -/
def quote (bs : List Nat) : List Nat := 34 :: (escape bs ++ [34])

/-- Decimal digit bytes of a natural number (`str(n)` for `n ≥ 0`), with
explicit fuel so that it reduces in the kernel. -/
def natReprAux : Nat → Nat → List Nat
  | 0, _ => []
  | fuel + 1, n =>
    if n < 10 then [48 + n] else natReprAux fuel (n / 10) ++ [48 + n % 10]

/-- `str(n).encode("ascii")` for a natural number. -/
def natRepr (n : Nat) : List Nat := natReprAux (n + 1) n

/-- `str(i).encode("ascii")` for a Python int. -/
def intRepr (i : Int) : List Nat :=
  if i < 0 then 45 :: natRepr (-i).toNat else natRepr i.toNat

/-- The Python values handled by the serializer branches that the client
uses: an `atom` wrapper, a `bytes` object, a `str` (modelled by its UTF-8
byte encoding) and an `int`.  (Floats and the `str(x)` fallback branch are
not needed by any claim.) -/
inductive PyV where
  | atomV : List Nat → PyV
  | bytesV : List Nat → PyV
  | strV : List Nat → PyV
  | intV : Int → PyV

/-- `serialize` from `serialization.py`: atoms pass through, bytes and str
are quoted (str after UTF-8 encoding), numbers render as decimal text. -/
def serialize : PyV → List Nat
  | .atomV v => v
  | .bytesV b => quote b
  | .strV s => quote s
  | .intV i => intRepr i

/-- `b" ".join(...)`. -/
def joinSpace : List (List Nat) → List Nat
  | [] => []
  | [x] => x
  | x :: xs => x ++ 32 :: joinSpace xs

/-- `RedisConnection.send_command`: serialize each argument (the command verb
already wrapped in `atom`), join with single spaces and append CR LF.
The result is the exact byte string passed to `sock.send`. -/
def sendCommandBytes (args : List PyV) : List Nat :=
  joinSpace (args.map serialize) ++ [13, 10]

/-! ### Client facade (`client.py`) -/

/-- `item == b"OK"` on a decoded reply (only a bytes reply can compare
equal). -/
def eqOK : RValue → Bool
  | .bytesV b => b == strB "OK"
  | _ => false

/-- `RedisTrio.process_command_ok`: run the round trip (whose decoded result
or raised error is the parameter `resp`) and compare the reply with
`b"OK"`. -/
def processCommandOk (resp : Except PErr RValue) : Except PErr Bool :=
  match resp with
  | .error e => .error e
  | .ok v => .ok (eqOK v)

/-- `RedisTrio.connect`, given the configured password and the outcome of the
`AUTH` round trip.  Returns the commands sent and either the raised error or
`true` for "returns self".  The boolean produced by `auth` is discarded:
`connect` does `await self.auth(...)` without using the result. -/
def connectModel (password : List Nat) (authResp : Except PErr RValue) :
    List (List Nat) × Except PErr Bool :=
  if password.isEmpty then ([], .ok true)
  else
    ([sendCommandBytes [.atomV (strB "AUTH"), .bytesV password]],
     match processCommandOk authResp with
     | .error e => .error e
     | .ok _ => .ok true)

/-- `RedisTrio.close`, given the outcome of the `QUIT` round trip
(`await self.quit()` followed, with no exception handler, by
`self.conn.close()`).  First component: whether `self.conn.close()` — the
socket release — was reached; second: the exception propagated out of
`close`, if any. -/
def redisTrioClose (quitres : Except PErr RValue) : Bool × Option PErr :=
  match quitres with
  | .ok _ => (true, none)
  | .error e => (false, some e)

/-- `isinstance(seconds, int)`. -/
def isIntInstance : PyV → Bool
  | .intV _ => true
  | _ => false

/-- `RedisTrio.setex`: raise `TypeError` (modelled as `.error ()`) when
`seconds` is not an int, otherwise send `SETEX key seconds value` and
return the bytes put on the socket. -/
def setexModel (key value seconds : PyV) : Except Unit (List Nat) :=
  if isIntInstance seconds then
    .ok (sendCommandBytes [.atomV (strB "SETEX"), key, seconds, value])
  else .error ()

/-! ### The specification's stateless FrameParser (for claim C2) -/

/-- Outcome of the specification's pure frame parser. -/
inductive SOut where
  | ok : RValue → List Nat → SOut
  | needMore : SOut
  | err : PErr → SOut
  | stuck : SOut

/-- Call descriptor for the specification parser. -/
inductive SCall where
  | pc : List Nat → SCall
  | ac : Int → List RValue → List Nat → SCall

/-- Modelled from the spec: the `FrameParser` contract of §4.2 — "a pure,
restartable decoder that consumes a byte buffer and either produces one
fully-decoded reply value plus the unconsumed remainder, or signals that
more bytes are required", where inside an array "each recursive parse may
itself signal `NeedMoreData`" which propagates to the caller ("the parser is
stateless between retries: no partial-array progress is preserved").
Frame-level byte semantics (prefix dispatch, slicing, error
classification) are identical to the implementation's `parse`; the only
difference is that a `NeedMoreData` arising inside an array propagates
instead of being handled by an in-place socket read. -/
def runSpec : Nat → SCall → SOut
  | 0, _ => .stuck
  | fuel + 1, .pc data =>
    match findCRLF data with
    | none => .needMore
    | some index =>
      let b0 := data.headD 0
      if !(knownPrefixB b0) then .err (.protocolError data)
      else if b0 == 43 then
        .ok (.bytesV ((data.take index).drop 1)) (data.drop (index + 2))
      else if b0 == 45 then
        .err (classifyError ((data.take index).drop 1))
      else if b0 == 58 then
        match pyInt ((data.take index).drop 1) with
        | none => .err .valueError
        | some i => .ok (.intV i) (data.drop (index + 2))
      else if b0 == 36 then
        match pyInt ((data.take index).drop 1) with
        | none => .err .valueError
        | some length =>
          let data2 := data.drop (index + 2)
          if length == -1 then .ok .nullV data2
          else if (data2.length : Int) < length + 2 then .needMore
          else .ok (.bytesV (pySliceTo data2 length)) (pySliceFrom data2 (length + 2))
      else
        match pyInt ((data.take index).drop 1) with
        | none => .err .valueError
        | some length =>
          let data2 := data.drop (index + 2)
          if length == -1 then .ok .nullV data2
          else runSpec fuel (.ac length [] data2)
  | fuel + 1, .ac length items data =>
    if (items.length : Int) < length then
      match runSpec fuel (.pc data) with
      | .ok item data' => runSpec fuel (.ac length (items ++ [item]) data')
      | .needMore => .needMore
      | .err e => .err e
      | .stuck => .stuck
    else .ok (.arrV items) data

/-- Modelled from the spec: `receive_reply` of §4.3 driving the stateless
`FrameParser` — accumulate socket reads in a buffer and, on `NeedMoreData`,
retry the whole parse on the grown buffer. -/
def receiveReplySpecLoop : Nat → List Nat → List (List Nat) → SOut
  | 0, _, _ => .stuck
  | fuel + 1, data, stream =>
    match runSpec fuel (.pc data) with
    | .needMore =>
      match stream with
      | [] => .stuck
      | c :: rest => receiveReplySpecLoop fuel (data ++ c) rest
    | r => r

/-- Modelled from the spec: the first socket read provides the initial
buffer, then the accumulate-and-restart loop runs. -/
def receiveReplySpec : Nat → List (List Nat) → SOut
  | _, [] => .stuck
  | fuel, c :: rest => receiveReplySpecLoop fuel c rest

/-! ### Well-formed wire frames

Syntax of one complete protocol unit as it appears on the wire, carrying the
raw header-line bytes so that non-canonical but accepted headers (leading
zeros, whitespace, a `+` sign) are covered.  `bulkF` carries the two
terminator bytes explicitly because `parse` discards them without checking
that they are CR LF. -/

inductive Frame where
  | statusF : List Nat → Frame
  | intF : List Nat → Int → Frame
  | bulkNullF : List Nat → Frame
  | bulkF : List Nat → List Nat → Nat → Nat → Frame
  | arrNullF : List Nat → Frame
  | arrF : List Nat → List Frame → Frame

mutual

/-- The byte encoding of a frame: prefix byte, header line, CR LF, and for
bulk strings the payload plus two terminator bytes, for arrays the encoded
elements in order. -/
def encode : Frame → List Nat
  | .statusF s => 43 :: (s ++ [13, 10])
  | .intF line _ => 58 :: (line ++ [13, 10])
  | .bulkNullF line => 36 :: (line ++ [13, 10])
  | .bulkF line p t1 t2 => 36 :: (line ++ 13 :: 10 :: (p ++ [t1, t2]))
  | .arrNullF line => 42 :: (line ++ [13, 10])
  | .arrF line items => 42 :: (line ++ 13 :: 10 :: encList items)

/-- Concatenated encodings of a list of frames. -/
def encList : List Frame → List Nat
  | [] => []
  | f :: fs => encode f ++ encList fs

end

mutual

/-- Well-formedness: header lines contain no CR LF, and every length/count
line parses (via Python `int()`) to `-1` for the null forms, to the payload
length for bulk strings, and to the element count for arrays. -/
def wfB : Frame → Bool
  | .statusF s => (findCRLF s).isNone
  | .intF line i => (findCRLF line).isNone && (pyInt line == some i)
  | .bulkNullF line => (findCRLF line).isNone && (pyInt line == some (-1))
  | .bulkF line p _ _ => (findCRLF line).isNone && (pyInt line == some (p.length : Int))
  | .arrNullF line => (findCRLF line).isNone && (pyInt line == some (-1))
  | .arrF line items =>
    (findCRLF line).isNone && (pyInt line == some (items.length : Int)) && wfList items

/-- All frames in a list are well formed. -/
def wfList : List Frame → Bool
  | [] => true
  | f :: fs => wfB f && wfList fs

end

mutual

/-- The Python value `RedisConnection.parse` produces for a frame. -/
def pyVal : Frame → RValue
  | .statusF s => .bytesV s
  | .intF _ i => .intV i
  | .bulkNullF _ => .nullV
  | .bulkF _ p _ _ => .bytesV p
  | .arrNullF _ => .nullV
  | .arrF _ items => .arrV (pyValList items)

/-- Values of a list of frames. -/
def pyValList : List Frame → List RValue
  | [] => []
  | f :: fs => pyVal f :: pyValList fs

end

/-! ### Lemmas about `findCRLF` and list slicing -/

theorem findCRLF_tail {x : Nat} {l : List Nat} (h : findCRLF (x :: l) = none) :
    findCRLF l = none := by
  cases l with
  | nil => rfl
  | cons b rest =>
    by_cases hab : x == 13 && b == 10 <;> simp [findCRLF, hab] at h <;> simp [h]

theorem findCRLF_cons {x : Nat} {l : List Nat} (hx : x ≠ 13) (h : findCRLF l = none) :
    findCRLF (x :: l) = none := by
  cases l with
  | nil => rfl
  | cons b rest =>
    have hx13 : (x == 13) = false := by simp [hx]
    simp [findCRLF, hx13, h]

theorem findCRLF_append_crlf {pre : List Nat} (h : findCRLF pre = none) (t : List Nat) :
    findCRLF (pre ++ 13 :: 10 :: t) = some pre.length := by
  induction pre with
  | nil => simp [findCRLF]
  | cons a pre' ih =>
    cases pre' with
    | nil =>
      by_cases ha : a == 13 && (13 : Nat) == 10
      · simp at ha
      · simp [findCRLF, ha]
    | cons b pre'' =>
      by_cases hab : a == 13 && b == 10
      · simp [findCRLF, hab] at h
      · have h' : findCRLF (b :: pre'') = none := by
          simp [findCRLF, hab] at h
          simp [h]
        have := ih h'
        simp only [List.cons_append] at this ⊢
        simp [findCRLF, hab, this]

theorem take_len_append (l t : List Nat) : (l ++ t).take l.length = l := by
  induction l with
  | nil => rfl
  | cons a l' ih => simp [ih]

theorem drop_len_append (l t : List Nat) (k : Nat) :
    (l ++ t).drop (l.length + k) = t.drop k := by
  induction l with
  | nil => simp
  | cons a l' ih => simpa [Nat.succ_add] using ih

theorem header_find (x : Nat) (line : List Nat) (rest : List Nat) (hx : x ≠ 13)
    (h : findCRLF line = none) :
    findCRLF (x :: (line ++ 13 :: 10 :: rest)) = some (line.length + 1) := by
  have : findCRLF ((x :: line) ++ 13 :: 10 :: rest) = some (x :: line).length :=
    findCRLF_append_crlf (findCRLF_cons hx h) rest
  simpa using this

theorem header_take (x : Nat) (line rest : List Nat) :
    ((x :: (line ++ 13 :: 10 :: rest)).take (line.length + 1)).drop 1 = line := by
  have : (line ++ 13 :: 10 :: rest).take line.length = line := take_len_append _ _
  simp [List.take_succ_cons, this]

theorem header_drop (x : Nat) (line rest : List Nat) :
    (x :: (line ++ 13 :: 10 :: rest)).drop (line.length + 1 + 2) = rest := by
  have h1 : line.length + 1 + 2 = (line.length + 2) + 1 := by omega
  rw [h1, List.drop_succ_cons]
  have := drop_len_append line (13 :: 10 :: rest) 2
  simpa using this

/-! ### One-step evaluation lemmas for `run` -/

theorem run_pc_noCRLF (fuel : Nat) (data : List Nat) (stream : List (List Nat))
    (h : findCRLF data = none) : run (fuel + 1) (.pc data stream) = .readMore := by
  simp [run, h]

theorem run_unknown (fuel : Nat) {data : List Nat} (stream : List (List Nat)) {i : Nat}
    (hf : findCRLF data = some i) (hp : knownPrefixB (data.headD 0) = false) :
    run (fuel + 1) (.pc data stream) = .err (.protocolError data) := by
  have hp' : knownPrefixB (data.head?.getD 0) = false := by simpa using hp
  simp [run, hf, hp']

theorem run_status (fuel : Nat) (s rest : List Nat) (stream : List (List Nat))
    (h : findCRLF s = none) :
    run (fuel + 1) (.pc (43 :: (s ++ 13 :: 10 :: rest)) stream) =
      .ok (.bytesV s) rest stream := by
  have hf := header_find 43 _ rest (by decide) h
  have ht := header_take 43 s rest
  have hd := header_drop 43 s rest
  simp only [run, hf, ht, hd]
  simp [knownPrefixB]

theorem run_error_line (fuel : Nat) (t rest : List Nat) (stream : List (List Nat))
    (h : findCRLF t = none) :
    run (fuel + 1) (.pc (45 :: (t ++ 13 :: 10 :: rest)) stream) =
      .err (classifyError t) := by
  have hf := header_find 45 _ rest (by decide) h
  have ht := header_take 45 t rest
  simp only [run, hf, ht]
  simp [knownPrefixB]

theorem run_int_line (fuel : Nat) (line rest : List Nat) (stream : List (List Nat)) {i : Int}
    (h : findCRLF line = none) (hpy : pyInt line = some i) :
    run (fuel + 1) (.pc (58 :: (line ++ 13 :: 10 :: rest)) stream) =
      .ok (.intV i) rest stream := by
  have hf := header_find 58 _ rest (by decide) h
  have ht := header_take 58 line rest
  have hd := header_drop 58 line rest
  simp only [run, hf, ht, hd]
  simp [knownPrefixB, hpy]

theorem run_int_bad (fuel : Nat) (line rest : List Nat) (stream : List (List Nat))
    (h : findCRLF line = none) (hpy : pyInt line = none) :
    run (fuel + 1) (.pc (58 :: (line ++ 13 :: 10 :: rest)) stream) = .err .valueError := by
  have hf := header_find 58 _ rest (by decide) h
  have ht := header_take 58 line rest
  simp only [run, hf, ht]
  simp [knownPrefixB, hpy]

theorem run_bulk_bad (fuel : Nat) (line rest : List Nat) (stream : List (List Nat))
    (h : findCRLF line = none) (hpy : pyInt line = none) :
    run (fuel + 1) (.pc (36 :: (line ++ 13 :: 10 :: rest)) stream) = .err .valueError := by
  have hf := header_find 36 _ rest (by decide) h
  have ht := header_take 36 line rest
  simp only [run, hf, ht]
  simp [knownPrefixB, hpy]

theorem run_bulk_null (fuel : Nat) (line rest : List Nat) (stream : List (List Nat))
    (h : findCRLF line = none) (hpy : pyInt line = some (-1)) :
    run (fuel + 1) (.pc (36 :: (line ++ 13 :: 10 :: rest)) stream) =
      .ok .nullV rest stream := by
  have hf := header_find 36 _ rest (by decide) h
  have ht := header_take 36 line rest
  have hd := header_drop 36 line rest
  simp only [run, hf, ht, hd]
  simp [knownPrefixB, hpy]

theorem run_bulk_short (fuel : Nat) (line rest : List Nat) (stream : List (List Nat)) {n : Int}
    (h : findCRLF line = none) (hpy : pyInt line = some n) (hne : n ≠ -1)
    (hlt : (rest.length : Int) < n + 2) :
    run (fuel + 1) (.pc (36 :: (line ++ 13 :: 10 :: rest)) stream) = .readMore := by
  have hf := header_find 36 _ rest (by decide) h
  have ht := header_take 36 line rest
  have hd := header_drop 36 line rest
  simp only [run, hf, ht, hd]
  simp [knownPrefixB, hpy, hne, hlt]

theorem run_bulk_ok (fuel : Nat) (line rest : List Nat) (stream : List (List Nat)) {n : Int}
    (h : findCRLF line = none) (hpy : pyInt line = some n) (hne : n ≠ -1)
    (hge : ¬ ((rest.length : Int) < n + 2)) :
    run (fuel + 1) (.pc (36 :: (line ++ 13 :: 10 :: rest)) stream) =
      .ok (.bytesV (pySliceTo rest n)) (pySliceFrom rest (n + 2)) stream := by
  have hf := header_find 36 _ rest (by decide) h
  have ht := header_take 36 line rest
  have hd := header_drop 36 line rest
  simp only [run, hf, ht, hd]
  simp [knownPrefixB, hpy, hne, hge]

theorem run_arr_bad (fuel : Nat) (line rest : List Nat) (stream : List (List Nat))
    (h : findCRLF line = none) (hpy : pyInt line = none) :
    run (fuel + 1) (.pc (42 :: (line ++ 13 :: 10 :: rest)) stream) = .err .valueError := by
  have hf := header_find 42 _ rest (by decide) h
  have ht := header_take 42 line rest
  simp only [run, hf, ht]
  simp [knownPrefixB, hpy]

theorem run_arr_null (fuel : Nat) (line rest : List Nat) (stream : List (List Nat))
    (h : findCRLF line = none) (hpy : pyInt line = some (-1)) :
    run (fuel + 1) (.pc (42 :: (line ++ 13 :: 10 :: rest)) stream) =
      .ok .nullV rest stream := by
  have hf := header_find 42 _ rest (by decide) h
  have ht := header_take 42 line rest
  have hd := header_drop 42 line rest
  simp only [run, hf, ht, hd]
  simp [knownPrefixB, hpy]

theorem run_arr_go (fuel : Nat) (line rest : List Nat) (stream : List (List Nat)) {n : Int}
    (h : findCRLF line = none) (hpy : pyInt line = some n) (hne : n ≠ -1) :
    run (fuel + 1) (.pc (42 :: (line ++ 13 :: 10 :: rest)) stream) =
      run fuel (.ac n [] rest stream) := by
  have hf := header_find 42 _ rest (by decide) h
  have ht := header_take 42 line rest
  have hd := header_drop 42 line rest
  simp only [run, hf, ht, hd]
  simp [knownPrefixB, hpy, hne]

theorem run_ac_exit (fuel : Nat) (len : Int) (items : List RValue) (data : List Nat)
    (stream : List (List Nat)) (h : ¬ ((items.length : Int) < len)) :
    run (fuel + 1) (.ac len items data stream) = .ok (.arrV items) data stream := by
  simp [run, h]

theorem run_ac_recv (fuel : Nat) (len : Int) (items : List RValue) (c : List Nat)
    (rest : List (List Nat)) (hlt : (items.length : Int) < len) :
    run (fuel + 1) (.ac len items [] (c :: rest)) = run fuel (.ac len items c rest) := by
  simp [run, hlt]

theorem run_ac_step (fuel : Nat) (len : Int) (items : List RValue) (data : List Nat)
    {stream : List (List Nat)} {it : RValue} {d' : List Nat} {s' : List (List Nat)}
    (hne : data ≠ []) (hlt : (items.length : Int) < len)
    (hp : run fuel (.pc data stream) = .ok it d' s') :
    run (fuel + 1) (.ac len items data stream) =
      run fuel (.ac len (items ++ [it]) d' s') := by
  cases data with
  | nil => exact absurd rfl hne
  | cons d0 drest => simp [run, hlt, hp]

theorem run_ac_more (fuel : Nat) (len : Int) (items : List RValue) (data : List Nat)
    (c : List Nat) (rest : List (List Nat)) (hne : data ≠ [])
    (hlt : (items.length : Int) < len)
    (hp : run fuel (.pc data (c :: rest)) = .readMore) :
    run (fuel + 1) (.ac len items data (c :: rest)) =
      run fuel (.ac len items (data ++ c) rest) := by
  cases data with
  | nil => exact absurd rfl hne
  | cons d0 drest => simp [run, hlt, hp]

theorem run_ac_err (fuel : Nat) (len : Int) (items : List RValue) (data : List Nat)
    {stream : List (List Nat)} {e : PErr} (hne : data ≠ [])
    (hlt : (items.length : Int) < len) (hp : run fuel (.pc data stream) = .err e) :
    run (fuel + 1) (.ac len items data stream) = .err e := by
  cases data with
  | nil => exact absurd rfl hne
  | cons d0 drest => simp [run, hlt, hp]

theorem processLoop_ok (fuel : Nat) {data : List Nat} {stream : List (List Nat)}
    {v : RValue} {rem : List Nat} {s' : List (List Nat)}
    (hp : run fuel (.pc data stream) = .ok v rem s') :
    processLoop (fuel + 1) data stream = .ok v s' := by
  simp [processLoop, hp]

theorem processLoop_more (fuel : Nat) {data : List Nat} (c : List Nat)
    (rest : List (List Nat)) (hp : run fuel (.pc data (c :: rest)) = .readMore) :
    processLoop (fuel + 1) data (c :: rest) = processLoop fuel (data ++ c) rest := by
  simp [processLoop, hp]

theorem processLoop_err (fuel : Nat) {data : List Nat} {stream : List (List Nat)}
    {e : PErr} (hp : run fuel (.pc data stream) = .err e) :
    processLoop (fuel + 1) data stream = .err e := by
  simp [processLoop, hp]

/-! ### Fuel monotonicity -/

theorem run_mono : ∀ (n : Nat) (c : Call), run n c ≠ .stuck → run (n + 1) c = run n c := by
  intro n
  induction n with
  | zero => intro c h; simp [run] at h
  | succ n ih =>
    intro c h
    cases c with
    | pc data stream =>
      simp only [run] at h ⊢
      cases hf : findCRLF data with
      | none => simp [hf]
      | some index =>
        simp only [hf] at h ⊢
        generalize data.headD 0 = b0 at h ⊢
        by_cases hk : knownPrefixB b0 = true
        · simp only [hk, Bool.not_true] at h ⊢
          by_cases h43 : b0 = 43
          · simp [h43]
          · by_cases h45 : b0 = 45
            · simp [h43, h45]
            · by_cases h58 : b0 = 58
              · simp [h43, h45, h58]
              · by_cases h36 : b0 = 36
                · simp [h43, h45, h58, h36]
                · simp only [h43, h45, h58, h36, beq_iff_eq, if_false, reduceIte,
                    Bool.false_eq_true] at h ⊢
                  cases hpy : pyInt ((data.take index).drop 1) with
                  | none => simp [hpy]
                  | some len =>
                    simp only [hpy] at h ⊢
                    by_cases hm1 : len = -1
                    · simp [hm1]
                    · simp only [hm1, if_false, reduceIte] at h ⊢
                      exact ih _ h
        · simp [hk] at h ⊢
    | ac len items data stream =>
      by_cases hlt : (items.length : Int) < len
      · cases data with
        | nil =>
          cases stream with
          | nil => simp [run, hlt] at h
          | cons c rest =>
            have hL : run ((n+1) + 1) (.ac len items [] (c :: rest)) =
                run (n+1) (.ac len items c rest) := run_ac_recv _ _ _ _ _ hlt
            have hR : run (n + 1) (.ac len items [] (c :: rest)) =
                run n (.ac len items c rest) := run_ac_recv _ _ _ _ _ hlt
            rw [hL, hR]
            rw [hR] at h
            exact ih _ h
        | cons d0 drest =>
          cases hq : run n (.pc (d0 :: drest) stream) with
          | stuck =>
            simp [run, hlt, hq] at h
          | ok it d' s' =>
            have hq' := ih (.pc (d0 :: drest) stream) (by rw [hq]; intro hh; cases hh)
            rw [hq] at hq'
            have hL := run_ac_step (n+1) len items (d0 :: drest)
              (by intro hh; cases hh) hlt hq'
            have hR := run_ac_step n len items (d0 :: drest)
              (by intro hh; cases hh) hlt hq
            rw [hL, hR]
            rw [hR] at h
            exact ih _ h
          | readMore =>
            cases stream with
            | nil => simp [run, hlt, hq] at h
            | cons c rest =>
              have hq' := ih (.pc (d0 :: drest) (c :: rest)) (by rw [hq]; intro hh; cases hh)
              rw [hq] at hq'
              have hL := run_ac_more (n+1) len items (d0 :: drest) c rest
                (by intro hh; cases hh) hlt hq'
              have hR := run_ac_more n len items (d0 :: drest) c rest
                (by intro hh; cases hh) hlt hq
              rw [hL, hR]
              rw [hR] at h
              exact ih _ h
          | err e =>
            have hq' := ih (.pc (d0 :: drest) stream) (by rw [hq]; intro hh; cases hh)
            rw [hq] at hq'
            have hL := run_ac_err (n+1) len items (d0 :: drest)
              (by intro hh; cases hh) hlt hq'
            have hR := run_ac_err n len items (d0 :: drest)
              (by intro hh; cases hh) hlt hq
            rw [hL, hR]
      · rw [run_ac_exit _ _ _ _ _ hlt, run_ac_exit _ _ _ _ _ hlt]

theorem run_mono_le {m n : Nat} (hmn : m ≤ n) (c : Call) (hs : run m c ≠ .stuck) :
    run n c = run m c := by
  induction n with
  | zero =>
    have : m = 0 := Nat.le_zero.mp hmn
    rw [this]
  | succ n ih =>
    rcases Nat.lt_or_ge m (n + 1) with hlt | hge
    · have hmn' : m ≤ n := Nat.lt_succ_iff.mp hlt
      have heq := ih hmn'
      have hns : run n c ≠ POut.stuck := by rw [heq]; exact hs
      rw [run_mono n c hns, heq]
    · have : m = n + 1 := Nat.le_antisymm hmn hge
      rw [this]

/-! ### Decoding a well-formed frame encoding -/

theorem encode_ne_nil (f : Frame) : encode f ≠ [] := by
  cases f <;> simp [encode]

theorem pySliceTo_natCast (l : List Nat) (k : Nat) : pySliceTo l (k : Int) = l.take k := by
  simp only [pySliceTo, pyIdx]
  have h1 : ¬ ((k : Int) < 0) := by omega
  simp only [h1, if_false, reduceIte, Int.toNat_natCast]
  by_cases h : k ≤ l.length
  · simp [Nat.min_eq_left h]
  · have h2 : l.length ≤ k := by omega
    rw [Nat.min_eq_right h2, List.take_length, List.take_of_length_le h2]

theorem pySliceFrom_natCast (l : List Nat) (k : Nat) : pySliceFrom l (k : Int) = l.drop k := by
  simp only [pySliceFrom, pyIdx]
  have h1 : ¬ ((k : Int) < 0) := by omega
  simp only [h1, if_false, reduceIte, Int.toNat_natCast]
  by_cases h : k ≤ l.length
  · simp [Nat.min_eq_left h]
  · have h2 : l.length ≤ k := by omega
    rw [Nat.min_eq_right h2, List.drop_length, List.drop_of_length_le h2]

theorem dec_arr (fs : List Frame)
    (IH : ∀ g, g ∈ fs → wfB g = true → ∀ tail stream,
      ∃ n, run n (.pc (encode g ++ tail) stream) = .ok (pyVal g) tail stream)
    (hwf : wfList fs = true) :
    ∀ (acc : List RValue) (len : Int) (tail : List Nat) (stream : List (List Nat)),
      len = acc.length + fs.length →
      ∃ n, run n (.ac len acc (encList fs ++ tail) stream) =
        .ok (.arrV (acc ++ pyValList fs)) tail stream := by
  induction fs with
  | nil =>
    intro acc len tail stream hlen
    refine ⟨1, ?_⟩
    have hx : ¬ ((acc.length : Int) < len) := by rw [hlen]; simp
    have := run_ac_exit 0 len acc (encList [] ++ tail) stream hx
    simpa [encList, pyValList] using this
  | cons f fs' ih =>
    intro acc len tail stream hlen
    have hwf' : wfB f = true ∧ wfList fs' = true := by
      simpa [wfList, Bool.and_eq_true] using hwf
    obtain ⟨n₁, h₁⟩ := IH f (List.mem_cons_self f fs') hwf'.1 (encList fs' ++ tail) stream
    obtain ⟨n₂, h₂⟩ := ih (fun g hg => IH g (List.mem_cons_of_mem f hg)) hwf'.2
      (acc ++ [pyVal f]) len tail stream
      (by rw [hlen]; simp only [List.length_append, List.length_cons,
        List.length_singleton, List.length_nil]; push_cast; omega)
    refine ⟨max n₁ n₂ + 1, ?_⟩
    have hshape : encList (f :: fs') ++ tail = encode f ++ (encList fs' ++ tail) := by
      simp [encList, List.append_assoc]
    rw [hshape]
    have hne : encode f ++ (encList fs' ++ tail) ≠ [] := by
      intro hc
      exact encode_ne_nil f (List.append_eq_nil.mp hc).1
    have hlt : (acc.length : Int) < len := by
      rw [hlen]; simp only [List.length_cons]; push_cast; omega
    have h₁' : run (max n₁ n₂) (.pc (encode f ++ (encList fs' ++ tail)) stream) =
        .ok (pyVal f) (encList fs' ++ tail) stream := by
      rw [run_mono_le (Nat.le_max_left n₁ n₂) _ (by rw [h₁]; intro hc; cases hc), h₁]
    rw [run_ac_step (max n₁ n₂) len acc _ hne hlt h₁']
    have h₂' : run (max n₁ n₂) (.ac len (acc ++ [pyVal f]) (encList fs' ++ tail) stream) =
        .ok (.arrV ((acc ++ [pyVal f]) ++ pyValList fs')) tail stream := by
      rw [run_mono_le (Nat.le_max_right n₁ n₂) _ (by rw [h₂]; intro hc; cases hc), h₂]
    rw [h₂']
    simp [pyValList, List.append_assoc]


theorem decode_encode_aux : ∀ (N : Nat) (f : Frame), sizeOf f ≤ N → wfB f = true →
    ∀ tail stream, ∃ n, run n (.pc (encode f ++ tail) stream) = .ok (pyVal f) tail stream := by
  intro N
  induction N with
  | zero =>
    intro f hsz
    exact absurd hsz (by cases f <;> simp)
  | succ N ihN =>
    intro f hsz hwf tail stream
    cases f with
    | statusF s =>
      refine ⟨1, ?_⟩
      have hcr : findCRLF s = none := by simpa [wfB, Option.isNone_iff_eq_none] using hwf
      have hsh : encode (Frame.statusF s) ++ tail = 43 :: (s ++ 13 :: 10 :: tail) := by
        simp [encode]
      rw [hsh]
      exact run_status 0 s tail stream hcr
    | intF line i =>
      refine ⟨1, ?_⟩
      have hw : (findCRLF line).isNone && (pyInt line == some i) = true := by
        simpa [wfB] using hwf
      have hcr : findCRLF line = none := by
        have := (Bool.and_eq_true _ _).mp hw
        simpa [Option.isNone_iff_eq_none] using this.1
      have hpy : pyInt line = some i := by
        have := (Bool.and_eq_true _ _).mp hw
        simpa using this.2
      have hsh : encode (Frame.intF line i) ++ tail = 58 :: (line ++ 13 :: 10 :: tail) := by
        simp [encode]
      rw [hsh]
      exact run_int_line 0 line tail stream hcr hpy
    | bulkNullF line =>
      refine ⟨1, ?_⟩
      have hw : (findCRLF line).isNone && (pyInt line == some (-1)) = true := by
        simpa [wfB] using hwf
      have hcr : findCRLF line = none := by
        have := (Bool.and_eq_true _ _).mp hw
        simpa [Option.isNone_iff_eq_none] using this.1
      have hpy : pyInt line = some (-1) := by
        have := (Bool.and_eq_true _ _).mp hw
        simpa using this.2
      have hsh : encode (Frame.bulkNullF line) ++ tail = 36 :: (line ++ 13 :: 10 :: tail) := by
        simp [encode]
      rw [hsh]
      exact run_bulk_null 0 line tail stream hcr hpy
    | arrNullF line =>
      refine ⟨1, ?_⟩
      have hw : (findCRLF line).isNone && (pyInt line == some (-1)) = true := by
        simpa [wfB] using hwf
      have hcr : findCRLF line = none := by
        have := (Bool.and_eq_true _ _).mp hw
        simpa [Option.isNone_iff_eq_none] using this.1
      have hpy : pyInt line = some (-1) := by
        have := (Bool.and_eq_true _ _).mp hw
        simpa using this.2
      have hsh : encode (Frame.arrNullF line) ++ tail = 42 :: (line ++ 13 :: 10 :: tail) := by
        simp [encode]
      rw [hsh]
      exact run_arr_null 0 line tail stream hcr hpy
    | bulkF line p t1 t2 =>
      refine ⟨1, ?_⟩
      have hw : (findCRLF line).isNone && (pyInt line == some (p.length : Int)) = true := by
        simpa [wfB] using hwf
      have hcr : findCRLF line = none := by
        have := (Bool.and_eq_true _ _).mp hw
        simpa [Option.isNone_iff_eq_none] using this.1
      have hpy : pyInt line = some (p.length : Int) := by
        have := (Bool.and_eq_true _ _).mp hw
        simpa using this.2
      have hsh : encode (Frame.bulkF line p t1 t2) ++ tail =
          36 :: (line ++ 13 :: 10 :: (p ++ t1 :: t2 :: tail)) := by
        simp [encode]
      rw [hsh]
      have hne : (p.length : Int) ≠ -1 := by omega
      have hge : ¬ (((p ++ t1 :: t2 :: tail).length : Int) < (p.length : Int) + 2) := by
        simp only [List.length_append, List.length_cons]
        push_cast
        omega
      rw [run_bulk_ok 0 line (p ++ t1 :: t2 :: tail) stream hcr hpy hne hge]
      have hto : pySliceTo (p ++ t1 :: t2 :: tail) ((p.length : Int)) = p := by
        rw [pySliceTo_natCast, take_len_append]
      have hfrom : pySliceFrom (p ++ t1 :: t2 :: tail) ((p.length : Int) + 2) = tail := by
        have : ((p.length : Int) + 2) = ((p.length + 2 : Nat) : Int) := by push_cast; ring
        rw [this, pySliceFrom_natCast]
        have := drop_len_append p (t1 :: t2 :: tail) 2
        simpa using this
      rw [hto, hfrom]
      rfl
    | arrF line items =>
      have hw : (((findCRLF line).isNone && (pyInt line == some (items.length : Int)))
          && wfList items) = true := by
        simpa [wfB] using hwf
      have hw1 := (Bool.and_eq_true _ _).mp hw
      have hw2 := (Bool.and_eq_true _ _).mp hw1.1
      have hcr : findCRLF line = none := by
        simpa [Option.isNone_iff_eq_none] using hw2.1
      have hpy : pyInt line = some (items.length : Int) := by simpa using hw2.2
      have hIH : ∀ g, g ∈ items → wfB g = true → ∀ tail stream,
          ∃ n, run n (.pc (encode g ++ tail) stream) = .ok (pyVal g) tail stream := by
        intro g hg
        apply ihN
        have h1 : sizeOf g < sizeOf items := List.sizeOf_lt_of_mem hg
        have h2 : sizeOf (Frame.arrF line items) = 1 + sizeOf line + sizeOf items := by
          simp
        omega
      obtain ⟨n₂, h₂⟩ := dec_arr items hIH hw1.2 [] (items.length : Int) tail stream
        (by simp)
      refine ⟨n₂ + 1, ?_⟩
      have hsh : encode (Frame.arrF line items) ++ tail =
          42 :: (line ++ 13 :: 10 :: (encList items ++ tail)) := by
        simp [encode]
      rw [hsh]
      have hne : (items.length : Int) ≠ -1 := by omega
      rw [run_arr_go n₂ line (encList items ++ tail) stream hcr hpy hne]
      rw [h₂]
      simp [pyVal]

theorem decode_encode (f : Frame) (hwf : wfB f = true) (tail : List Nat)
    (stream : List (List Nat)) :
    ∃ n, run n (.pc (encode f ++ tail) stream) = .ok (pyVal f) tail stream :=
  decode_encode_aux (sizeOf f) f (Nat.le_refl _) hwf tail stream

/-! ### Decoding a frame split at an arbitrary point -/

theorem take_app_le : ∀ (l t : List Nat) (k : Nat), k ≤ l.length → (l ++ t).take k = l.take k := by
  intro l
  induction l with
  | nil => intro t k hk; simp at hk; simp [hk]
  | cons a l' ih =>
    intro t k hk
    cases k with
    | zero => rfl
    | succ k' =>
      simp only [List.cons_append, List.take_succ_cons]
      rw [ih t k' (by simpa using hk)]

theorem drop_app_le : ∀ (l t : List Nat) (k : Nat), k ≤ l.length → (l ++ t).drop k = l.drop k ++ t := by
  intro l
  induction l with
  | nil => intro t k hk; simp at hk; simp [hk]
  | cons a l' ih =>
    intro t k hk
    cases k with
    | zero => rfl
    | succ k' =>
      simp only [List.cons_append, List.drop_succ_cons]
      exact ih t k' (by simpa using hk)

theorem take_app_add : ∀ (l t : List Nat) (k : Nat), (l ++ t).take (l.length + k) = l ++ t.take k := by
  intro l
  induction l with
  | nil => intro t k; simp
  | cons a l' ih =>
    intro t k
    simp only [List.cons_append, List.length_cons]
    have : l'.length + 1 + k = (l'.length + k) + 1 := by omega
    rw [this, List.take_succ_cons, ih]

theorem take_ne_nil (l : List Nat) (k : Nat) (hl : l ≠ []) (hk : k ≠ 0) : l.take k ≠ [] := by
  cases l with
  | nil => exact absurd rfl hl
  | cons a l' =>
    cases k with
    | zero => exact absurd rfl hk
    | succ k' => simp

theorem findCRLF_take : ∀ (l : List Nat), findCRLF l = none → ∀ j, findCRLF (l.take j) = none := by
  intro l
  induction l with
  | nil => intro h j; simp [findCRLF]
  | cons a l' ih =>
    intro h j
    cases j with
    | zero => rfl
    | succ j' =>
      rw [List.take_succ_cons]
      cases l' with
      | nil => simp [findCRLF]
      | cons b l'' =>
        by_cases hab : a == 13 && b == 10
        · simp [findCRLF, hab] at h
        · have h' : findCRLF (b :: l'') = none := by
            simp [findCRLF, hab] at h
            simp [h]
          cases j' with
          | zero => simp [findCRLF]
          | succ j'' =>
            rw [List.take_succ_cons]
            have hrec : findCRLF (b :: l''.take j'') = none := by
              have := ih h' (j'' + 1)
              rwa [List.take_succ_cons] at this
            simp [findCRLF, hab, hrec]

theorem findCRLF_append_cr : ∀ (l : List Nat), findCRLF l = none → findCRLF (l ++ [13]) = none := by
  intro l
  induction l with
  | nil => intro _; rfl
  | cons a l' ih =>
    intro h
    cases l' with
    | nil => simp [findCRLF]
    | cons b l'' =>
      by_cases hab : a == 13 && b == 10
      · simp [findCRLF, hab] at h
      · have h' : findCRLF (b :: l'') = none := by
          simp [findCRLF, hab] at h
          simp [h]
        have := ih h'
        simp only [List.cons_append] at this ⊢
        simp [findCRLF, hab, this]

theorem partial_header_none {line : List Nat} (x : Nat) (rest : List Nat)
    (hline : findCRLF line = none) (hx : x ≠ 13) :
    ∀ k, k ≤ line.length + 2 →
      findCRLF ((x :: (line ++ 13 :: 10 :: rest)).take k) = none := by
  intro k hk
  cases k with
  | zero => rfl
  | succ j =>
    rw [List.take_succ_cons]
    apply findCRLF_cons hx
    by_cases hj : j ≤ line.length
    · rw [take_app_le line _ j hj]
      exact findCRLF_take line hline j
    · have hj1 : j = line.length + 1 := by omega
      have : (line ++ 13 :: 10 :: rest).take j = line ++ [13] := by
        rw [hj1, show line.length + 1 = line.length + 1 from rfl]
        rw [take_app_add line (13 :: 10 :: rest) 1]
        rfl
      rw [this]
      exact findCRLF_append_cr line hline


theorem q2_arr : ∀ (fs : List Frame),
    (∀ g, g ∈ fs → wfB g = true → ∀ k tail, k < (encode g).length →
      ∃ n, run n (.pc ((encode g).take k) [(encode g).drop k ++ tail]) = .readMore ∨
           run n (.pc ((encode g).take k) [(encode g).drop k ++ tail]) = .ok (pyVal g) tail []) →
    wfList fs = true →
    ∀ (acc : List RValue) (len : Int) (k : Nat) (tail : List Nat),
      len = acc.length + fs.length → k < (encList fs).length →
      ∃ n, run n (.ac len acc ((encList fs).take k) [(encList fs).drop k ++ tail]) =
        .ok (.arrV (acc ++ pyValList fs)) tail [] := by
  intro fs
  induction fs with
  | nil =>
    intro _ _ acc len k tail _ hk
    simp [encList] at hk
  | cons f rest ihq =>
    intro IHp2 hwf acc len k tail hlen hk
    have hwf' : wfB f = true ∧ wfList rest = true := by
      simpa [wfList, Bool.and_eq_true] using hwf
    have hlt : (acc.length : Int) < len := by
      rw [hlen]; simp only [List.length_cons]; push_cast; omega
    have hEnc : encList (f :: rest) = encode f ++ encList rest := by simp [encList]
    by_cases hk0 : k = 0
    · subst hk0
      obtain ⟨n₂, h₂⟩ := dec_arr (f :: rest)
        (fun g _ hwfg tail' stream' => decode_encode g hwfg tail' stream') hwf
        acc len tail [] hlen
      refine ⟨n₂ + 1, ?_⟩
      simp only [List.take_zero, List.drop_zero]
      rw [run_ac_recv n₂ len acc (encList (f :: rest) ++ tail) [] hlt]
      exact h₂
    · by_cases hkE : k < (encode f).length
      · have hdata : (encList (f :: rest)).take k = (encode f).take k := by
          rw [hEnc, take_app_le _ _ k (Nat.le_of_lt hkE)]
        have hchunk : (encList (f :: rest)).drop k ++ tail =
            (encode f).drop k ++ (encList rest ++ tail) := by
          rw [hEnc, drop_app_le _ _ k (Nat.le_of_lt hkE), List.append_assoc]
        have hne : (encode f).take k ≠ [] := take_ne_nil _ k (encode_ne_nil f) hk0
        obtain ⟨n₁, hp⟩ := IHp2 f (List.mem_cons_self f rest) hwf'.1 k
          (encList rest ++ tail) hkE
        rcases hp with hrm | hok
        · obtain ⟨n₂, h₂⟩ := dec_arr (f :: rest)
            (fun g _ hwfg tail' stream' => decode_encode g hwfg tail' stream') hwf
            acc len tail [] hlen
          refine ⟨max n₁ n₂ + 1, ?_⟩
          rw [hdata, hchunk]
          have hrm' : run (max n₁ n₂)
              (.pc ((encode f).take k) [(encode f).drop k ++ (encList rest ++ tail)]) =
              .readMore := by
            rw [run_mono_le (Nat.le_max_left n₁ n₂) _ (by rw [hrm]; intro hc; cases hc), hrm]
          rw [run_ac_more (max n₁ n₂) len acc _ _ [] hne hlt hrm']
          have hglue : (encode f).take k ++ ((encode f).drop k ++ (encList rest ++ tail)) =
              encList (f :: rest) ++ tail := by
            rw [← List.append_assoc, List.take_append_drop, hEnc, List.append_assoc]
          rw [hglue]
          rw [run_mono_le (Nat.le_max_right n₁ n₂) _ (by rw [h₂]; intro hc; cases hc), h₂]
        · obtain ⟨n₂, h₂⟩ := dec_arr rest
            (fun g _ hwfg tail' stream' => decode_encode g hwfg tail' stream') hwf'.2
            (acc ++ [pyVal f]) len tail []
            (by rw [hlen]; simp only [List.length_append, List.length_cons,
              List.length_singleton, List.length_nil]; push_cast; omega)
          refine ⟨max n₁ n₂ + 1, ?_⟩
          rw [hdata, hchunk]
          have hok' : run (max n₁ n₂)
              (.pc ((encode f).take k) [(encode f).drop k ++ (encList rest ++ tail)]) =
              .ok (pyVal f) (encList rest ++ tail) [] := by
            rw [run_mono_le (Nat.le_max_left n₁ n₂) _ (by rw [hok]; intro hc; cases hc), hok]
          rw [run_ac_step (max n₁ n₂) len acc _ hne hlt hok']
          rw [run_mono_le (Nat.le_max_right n₁ n₂) _ (by rw [h₂]; intro hc; cases hc), h₂]
          have : (acc ++ [pyVal f]) ++ pyValList rest = acc ++ pyValList (f :: rest) := by
            simp [pyValList]
          rw [this]
      · have hkk : (encode f).length ≤ k := Nat.le_of_not_lt hkE
        obtain ⟨k', rfl⟩ : ∃ k', k = (encode f).length + k' :=
          ⟨k - (encode f).length, by omega⟩
        have hk' : k' < (encList rest).length := by
          rw [hEnc] at hk
          simp only [List.length_append] at hk
          omega
        have hdata : (encList (f :: rest)).take ((encode f).length + k') =
            encode f ++ (encList rest).take k' := by
          rw [hEnc, take_app_add]
        have hchunk : (encList (f :: rest)).drop ((encode f).length + k') ++ tail =
            (encList rest).drop k' ++ tail := by
          rw [hEnc, drop_len_append]
        obtain ⟨n₁, h₁⟩ := decode_encode f hwf'.1 ((encList rest).take k')
          [(encList rest).drop k' ++ tail]
        obtain ⟨n₂, h₂⟩ := ihq (fun g hg => IHp2 g (List.mem_cons_of_mem f hg)) hwf'.2
          (acc ++ [pyVal f]) len k' tail
          (by rw [hlen]; simp only [List.length_append, List.length_cons,
            List.length_singleton, List.length_nil]; push_cast; omega) hk'
        refine ⟨max n₁ n₂ + 1, ?_⟩
        rw [hdata, hchunk]
        have hne : encode f ++ (encList rest).take k' ≠ [] := by
          intro hc
          exact encode_ne_nil f (List.append_eq_nil.mp hc).1
        have h₁' : run (max n₁ n₂)
            (.pc (encode f ++ (encList rest).take k')
              [(encList rest).drop k' ++ tail]) =
            .ok (pyVal f) ((encList rest).take k')
              [(encList rest).drop k' ++ tail] := by
          rw [run_mono_le (Nat.le_max_left n₁ n₂) _ (by rw [h₁]; intro hc; cases hc), h₁]
        rw [run_ac_step (max n₁ n₂) len acc _ hne hlt h₁']
        rw [run_mono_le (Nat.le_max_right n₁ n₂) _ (by rw [h₂]; intro hc; cases hc), h₂]
        have : (acc ++ [pyVal f]) ++ pyValList rest = acc ++ pyValList (f :: rest) := by
          simp [pyValList]
        rw [this]


theorem header_take_add (x : Nat) (line body : List Nat) (j : Nat) :
    (x :: (line ++ 13 :: 10 :: body)).take (line.length + 3 + j) =
      x :: (line ++ 13 :: 10 :: body.take j) := by
  have h1 : line.length + 3 + j = (line.length + (j + 2)) + 1 := by omega
  rw [h1, List.take_succ_cons, take_app_add]
  rfl

theorem header_drop_add (x : Nat) (line body : List Nat) (j : Nat) :
    (x :: (line ++ 13 :: 10 :: body)).drop (line.length + 3 + j) = body.drop j := by
  have h1 : line.length + 3 + j = (line.length + (j + 2)) + 1 := by omega
  rw [h1, List.drop_succ_cons, drop_len_append]
  rfl

theorem p2_partial : ∀ (N : Nat) (f : Frame), sizeOf f ≤ N → wfB f = true →
    ∀ k tail, k < (encode f).length →
    ∃ n, run n (.pc ((encode f).take k) [(encode f).drop k ++ tail]) = .readMore ∨
         run n (.pc ((encode f).take k) [(encode f).drop k ++ tail]) = .ok (pyVal f) tail [] := by
  intro N
  induction N with
  | zero =>
    intro f hsz
    exact absurd hsz (by cases f <;> simp)
  | succ N ihN =>
    intro f hsz hwf k tail hk
    cases f with
    | statusF s =>
      refine ⟨1, Or.inl ?_⟩
      have hcr : findCRLF s = none := by simpa [wfB, Option.isNone_iff_eq_none] using hwf
      have hlen : (encode (Frame.statusF s)).length = s.length + 3 := by simp [encode]
      apply run_pc_noCRLF
      exact partial_header_none 43 [] hcr (by decide) k (by omega)
    | intF line i =>
      refine ⟨1, Or.inl ?_⟩
      have hw : ((findCRLF line).isNone && (pyInt line == some i)) = true := by
        simpa [wfB] using hwf
      have hcr : findCRLF line = none := by
        have := (Bool.and_eq_true _ _).mp hw
        simpa [Option.isNone_iff_eq_none] using this.1
      have hlen : (encode (Frame.intF line i)).length = line.length + 3 := by simp [encode]
      apply run_pc_noCRLF
      exact partial_header_none 58 [] hcr (by decide) k (by omega)
    | bulkNullF line =>
      refine ⟨1, Or.inl ?_⟩
      have hw : ((findCRLF line).isNone && (pyInt line == some (-1))) = true := by
        simpa [wfB] using hwf
      have hcr : findCRLF line = none := by
        have := (Bool.and_eq_true _ _).mp hw
        simpa [Option.isNone_iff_eq_none] using this.1
      have hlen : (encode (Frame.bulkNullF line)).length = line.length + 3 := by simp [encode]
      apply run_pc_noCRLF
      exact partial_header_none 36 [] hcr (by decide) k (by omega)
    | arrNullF line =>
      refine ⟨1, Or.inl ?_⟩
      have hw : ((findCRLF line).isNone && (pyInt line == some (-1))) = true := by
        simpa [wfB] using hwf
      have hcr : findCRLF line = none := by
        have := (Bool.and_eq_true _ _).mp hw
        simpa [Option.isNone_iff_eq_none] using this.1
      have hlen : (encode (Frame.arrNullF line)).length = line.length + 3 := by simp [encode]
      apply run_pc_noCRLF
      exact partial_header_none 42 [] hcr (by decide) k (by omega)
    | bulkF line p t1 t2 =>
      have hw : ((findCRLF line).isNone && (pyInt line == some (p.length : Int))) = true := by
        simpa [wfB] using hwf
      have hcr : findCRLF line = none := by
        have := (Bool.and_eq_true _ _).mp hw
        simpa [Option.isNone_iff_eq_none] using this.1
      have hpy : pyInt line = some (p.length : Int) := by
        have := (Bool.and_eq_true _ _).mp hw
        simpa using this.2
      have hlen : (encode (Frame.bulkF line p t1 t2)).length =
          line.length + 3 + (p.length + 2) := by
        simp [encode]; omega
      by_cases hhd : k ≤ line.length + 2
      · refine ⟨1, Or.inl ?_⟩
        apply run_pc_noCRLF
        exact partial_header_none 36 (p ++ [t1, t2]) hcr (by decide) k hhd
      · obtain ⟨j, rfl⟩ : ∃ j, k = line.length + 3 + j :=
          ⟨k - (line.length + 3), by omega⟩
        have hj : j < p.length + 2 := by omega
        refine ⟨1, Or.inl ?_⟩
        have hsh : (encode (Frame.bulkF line p t1 t2)).take (line.length + 3 + j) =
            36 :: (line ++ 13 :: 10 :: (p ++ [t1, t2]).take j) := by
          simp only [encode]
          exact header_take_add 36 line (p ++ [t1, t2]) j
        rw [hsh]
        apply run_bulk_short 0 line ((p ++ [t1, t2]).take j) _ hcr hpy (by omega)
        have hlj : ((p ++ [t1, t2]).take j).length = j := by
          rw [List.length_take]
          simp only [List.length_append, List.length_cons, List.length_nil]
          omega
        rw [hlj]
        push_cast
        omega
    | arrF line items =>
      have hw : (((findCRLF line).isNone && (pyInt line == some (items.length : Int)))
          && wfList items) = true := by
        simpa [wfB] using hwf
      have hw1 := (Bool.and_eq_true _ _).mp hw
      have hw2 := (Bool.and_eq_true _ _).mp hw1.1
      have hcr : findCRLF line = none := by
        simpa [Option.isNone_iff_eq_none] using hw2.1
      have hpy : pyInt line = some (items.length : Int) := by simpa using hw2.2
      have hlen : (encode (Frame.arrF line items)).length =
          line.length + 3 + (encList items).length := by
        simp [encode]; omega
      by_cases hhd : k ≤ line.length + 2
      · refine ⟨1, Or.inl ?_⟩
        apply run_pc_noCRLF
        exact partial_header_none 42 (encList items) hcr (by decide) k hhd
      · obtain ⟨j, rfl⟩ : ∃ j, k = line.length + 3 + j :=
          ⟨k - (line.length + 3), by omega⟩
        have hj : j < (encList items).length := by omega
        have hIHp2 : ∀ g, g ∈ items → wfB g = true → ∀ k' tail', k' < (encode g).length →
            ∃ n, run n (.pc ((encode g).take k') [(encode g).drop k' ++ tail']) = .readMore ∨
              run n (.pc ((encode g).take k') [(encode g).drop k' ++ tail']) =
                .ok (pyVal g) tail' [] := by
          intro g hg
          apply ihN
          have h1 : sizeOf g < sizeOf items := List.sizeOf_lt_of_mem hg
          have h2 : sizeOf (Frame.arrF line items) = 1 + sizeOf line + sizeOf items := by
            simp
          omega
        obtain ⟨n₂, h₂⟩ := q2_arr items hIHp2 hw1.2 [] (items.length : Int) j tail
          (by simp) hj
        refine ⟨n₂ + 1, Or.inr ?_⟩
        have hsh : (encode (Frame.arrF line items)).take (line.length + 3 + j) =
            42 :: (line ++ 13 :: 10 :: (encList items).take j) := by
          simp only [encode]
          exact header_take_add 42 line (encList items) j
        have hdr : (encode (Frame.arrF line items)).drop (line.length + 3 + j) =
            (encList items).drop j := by
          simp only [encode]
          exact header_drop_add 42 line (encList items) j
        rw [hsh, hdr]
        rw [run_arr_go n₂ line ((encList items).take j) [(encList items).drop j ++ tail]
          hcr hpy (by omega)]
        rw [h₂]
        simp [pyVal]


theorem processLoop_mono : ∀ (n : Nat) (data : List Nat) (stream : List (List Nat)),
    processLoop n data stream ≠ .stuck →
    processLoop (n + 1) data stream = processLoop n data stream := by
  intro n
  induction n with
  | zero => intro data stream h; simp [processLoop] at h
  | succ n ih =>
    intro data stream h
    cases hq : run n (.pc data stream) with
    | stuck => simp [processLoop, hq] at h
    | ok v rem s' =>
      have hq' : run (n + 1) (.pc data stream) = .ok v rem s' := by
        rw [run_mono n _ (by rw [hq]; intro hc; cases hc), hq]
      rw [processLoop_ok (n + 1) hq', processLoop_ok n hq]
    | err e =>
      have hq' : run (n + 1) (.pc data stream) = .err e := by
        rw [run_mono n _ (by rw [hq]; intro hc; cases hc), hq]
      rw [processLoop_err (n + 1) hq', processLoop_err n hq]
    | readMore =>
      have hq' : run (n + 1) (.pc data stream) = .readMore := by
        rw [run_mono n _ (by rw [hq]; intro hc; cases hc), hq]
      cases stream with
      | nil => simp [processLoop, hq] at h
      | cons c rest =>
        rw [processLoop_more (n + 1) c rest hq', processLoop_more n c rest hq]
        rw [processLoop_more n c rest hq] at h
        exact ih _ _ h

theorem processLoop_mono_le {m n : Nat} (hmn : m ≤ n) (data : List Nat)
    (stream : List (List Nat)) (hs : processLoop m data stream ≠ .stuck) :
    processLoop n data stream = processLoop m data stream := by
  induction n with
  | zero =>
    have : m = 0 := Nat.le_zero.mp hmn
    rw [this]
  | succ n ih =>
    rcases Nat.lt_or_ge m (n + 1) with hlt | hge
    · have hmn' : m ≤ n := Nat.lt_succ_iff.mp hlt
      have heq := ih hmn'
      have hns : processLoop n data stream ≠ ROut.stuck := by rw [heq]; exact hs
      rw [processLoop_mono n data stream hns, heq]
    · have : m = n + 1 := Nat.le_antisymm hmn hge
      rw [this]

theorem split_decode (f : Frame) (hwf : wfB f = true) (k : Nat)
    (hk : k ≤ (encode f).length) :
    ∃ n s', processResponse n [(encode f).take k, (encode f).drop k] =
      .ok (pyVal f) s' := by
  rcases Nat.lt_or_ge k (encode f).length with hlt | hge
  · obtain ⟨n₁, hp⟩ := p2_partial (sizeOf f) f (Nat.le_refl _) hwf k [] hlt
    rcases hp with hrm | hok
    · obtain ⟨n₂, h₂⟩ := decode_encode f hwf [] []
      rw [List.append_nil] at h₂
      refine ⟨max n₁ (n₂ + 1) + 1, [], ?_⟩
      show processLoop (max n₁ (n₂ + 1) + 1) ((encode f).take k) [(encode f).drop k] = _
      have hrm' : run (max n₁ (n₂ + 1)) (.pc ((encode f).take k) [(encode f).drop k]) =
          .readMore := by
        rw [List.append_nil] at hrm
        rw [run_mono_le (Nat.le_max_left n₁ (n₂ + 1)) _ (by rw [hrm]; intro hc; cases hc), hrm]
      rw [processLoop_more _ _ _ hrm', List.take_append_drop]
      have hok2 : processLoop (n₂ + 1) (encode f) [] = .ok (pyVal f) [] :=
        processLoop_ok n₂ h₂
      rw [processLoop_mono_le (Nat.le_max_right n₁ (n₂ + 1)) _ _
        (by rw [hok2]; intro hc; cases hc), hok2]
    · rw [List.append_nil] at hok
      refine ⟨n₁ + 1, [], ?_⟩
      show processLoop (n₁ + 1) ((encode f).take k) [(encode f).drop k] = _
      exact processLoop_ok n₁ hok
  · have hke : k = (encode f).length := Nat.le_antisymm hk hge
    obtain ⟨n₁, h₁⟩ := decode_encode f hwf [] [[]]
    rw [List.append_nil] at h₁
    refine ⟨n₁ + 1, [[]], ?_⟩
    have ht : (encode f).take k = encode f := by
      rw [hke, List.take_length]
    have hd : (encode f).drop k = [] := by
      rw [hke, List.drop_length]
    rw [ht, hd]
    show processLoop (n₁ + 1) (encode f) [[]] = _
    exact processLoop_ok n₁ h₁


/-! ### Claim theorems -/

/-- C3 counterexample: `setex(key, value, -1)` is **not** rejected — `-1` is
an `int`, so the `isinstance` guard passes and the `SETEX` command bytes are
written to the socket (the result is `.ok` with a nonempty byte string, not
an error raised before sending). -/
theorem C3_counterexample :
    setexModel (.strV (strB "k")) (.strV (strB "v")) (.intV (-1)) =
      .ok (strB "SETEX " ++ [34, 107, 34, 32, 45, 49, 32, 34, 118, 34, 13, 10]) ∧
    strB "SETEX " ++ [34, 107, 34, 32, 45, 49, 32, 34, 118, 34, 13, 10] ≠ [] := by
  exact ⟨rfl, by simp⟩

/-- C3 amended: `setex` requires `seconds` to be an `int` and raises
`TypeError` before sending for any non-int; it does **not** require
non-negativity — every int, including `-1`, passes the check and the
`SETEX key seconds value` command is sent. -/
theorem C3_amended_setex :
    (∀ key value s, isIntInstance s = false → setexModel key value s = .error ()) ∧
    (∀ key value (i : Int), setexModel key value (.intV i) =
      .ok (sendCommandBytes [.atomV (strB "SETEX"), key, .intV i, value])) := by
  constructor
  · intro key value s hs
    simp [setexModel, hs]
  · intro key value i
    simp [setexModel, isIntInstance]

/-- C3 witness: instantiating the amended claim at a string `seconds` and at
`seconds = -1`. -/
theorem C3_amended_setex_witness :
    isIntInstance (.strV (strB "10")) = false ∧
    setexModel (.strV (strB "k")) (.strV (strB "v")) (.strV (strB "10")) = .error () ∧
    setexModel (.strV (strB "k")) (.strV (strB "v")) (.intV (-1)) =
      .ok (sendCommandBytes [.atomV (strB "SETEX"), .strV (strB "k"), .intV (-1),
        .strV (strB "v")]) :=
  ⟨rfl,
   C3_amended_setex.1 (.strV (strB "k")) (.strV (strB "v")) (.strV (strB "10")) rfl,
   C3_amended_setex.2 (.strV (strB "k")) (.strV (strB "v")) (-1)⟩

/-- C4 counterexample: when the `QUIT` round trip raises, `close()` does not
reach `self.conn.close()` — the socket is **not** released (first component
`false`), contradicting "the socket is still closed for every outcome". -/
theorem C4_counterexample :
    (redisTrioClose (.error (.responseError (strB "oops")))).1 = false := rfl

/-- C4 amended: `close()` awaits the quit verb with no exception handler:
an error raised during the quit round trip propagates out of `close` and the
socket release is skipped; the socket is released only when the quit round
trip succeeds. -/
theorem C4_amended_close :
    (∀ e, redisTrioClose (.error e) = (false, some e)) ∧
    (∀ v, redisTrioClose (.ok v) = (true, none)) :=
  ⟨fun _ => rfl, fun _ => rfl⟩

/-- C7 counterexample: with a configured password, an authentication status
reply of `"NO"` (which is not `"OK"`: `eqOK` is `false`) still lets
`connect` complete successfully — the boolean from `auth` is discarded. -/
theorem C7_counterexample :
    (connectModel (strB "pw") (.ok (.bytesV (strB "NO")))).2 = .ok true ∧
    eqOK (.bytesV (strB "NO")) = false :=
  ⟨rfl, rfl⟩

/-- C7 amended: `connect` with a non-empty password sends the `AUTH` command,
but discards the `== b"OK"` comparison: any decoded reply (OK or not) lets
`connect` return successfully; only a raised error from the round trip
propagates and fails `connect`; with an empty password no command is sent. -/
theorem C7_amended_connect :
    (∀ b pw v, (connectModel (b :: pw) (.ok v)).2 = .ok true) ∧
    (∀ b pw, (connectModel (b :: pw) (.ok (.bytesV (strB "OK")))).1 =
      [sendCommandBytes [.atomV (strB "AUTH"), .bytesV (b :: pw)]]) ∧
    (∀ b pw (v : RValue), (connectModel (b :: pw) (.ok v)).1 =
      [sendCommandBytes [.atomV (strB "AUTH"), .bytesV (b :: pw)]]) ∧
    (∀ b pw e, (connectModel (b :: pw) (.error e)).2 = .error e) ∧
    (∀ r, connectModel [] r = ([], .ok true)) := by
  refine ⟨?_, ?_, ?_, ?_, ?_⟩
  · intro b pw v; simp [connectModel, processCommandOk]
  · intro b pw; simp [connectModel]
  · intro b pw v; simp [connectModel]
  · intro b pw e; simp [connectModel, processCommandOk]
  · intro r; simp [connectModel]

/-- C9: `serialize` quotes bytes (and UTF-8–encoded str) values, escaping
exactly NUL, LF, CR, backslash and double quote and passing every other byte
through; atoms pass through unmodified and unquoted. -/
theorem C9_serialize :
    (∀ bs : List Nat, serialize (.bytesV bs) = 34 ::
      ((bs.bind fun c =>
        if c = 0 then [92, 120, 48, 48]
        else if c = 10 then [92, 110]
        else if c = 13 then [92, 114]
        else if c = 92 then [92, 92]
        else if c = 34 then [92, 34]
        else [c]) ++ [34])) ∧
    (∀ s : List Nat, serialize (.strV s) = serialize (.bytesV s)) ∧
    (∀ v : List Nat, serialize (.atomV v) = v) := by
  refine ⟨?_, fun _ => rfl, fun _ => rfl⟩
  intro bs
  suffices h : escape bs = bs.bind fun c =>
      if c = 0 then [92, 120, 48, 48]
      else if c = 10 then [92, 110]
      else if c = 13 then [92, 114]
      else if c = 92 then [92, 92]
      else if c = 34 then [92, 34]
      else [c] by
    simp [serialize, quote, h]
  induction bs with
  | nil => rfl
  | cons c rest ih =>
    by_cases h0 : c = 0
    · simp [escape, escapes, h0, ih]
    · by_cases h10 : c = 10
      · simp [escape, escapes, h0, h10, ih]
      · by_cases h13 : c = 13
        · simp [escape, escapes, h0, h10, h13, ih]
        · by_cases h92 : c = 92
          · simp [escape, escapes, h0, h10, h13, h92, ih]
          · by_cases h34 : c = 34
            · simp [escape, escapes, h0, h10, h13, h92, h34, ih]
            · simp [escape, escapes, h0, h10, h13, h92, h34, ih]


/-- Outcome is a raised `ProtocolError` (with any payload). -/
def isProtocolErrOut : POut → Bool
  | .err (.protocolError _) => true
  | _ => false

/-- C5 counterexample: a bulk-string frame whose length line is the non-
numeric byte `x` makes `parse` raise the built-in `ValueError` coming from
`int()`, which is not a protocol error of any kind. -/
theorem C5_counterexample :
    parseF 2 (strB "$x\r\n") [] = .err .valueError ∧
    isProtocolErrOut (parseF 2 (strB "$x\r\n") []) = false :=
  ⟨rfl, rfl⟩

/-- C5 amended: a buffer with a CR-LF whose first byte is not one of
`+ - : $ *` raises `ProtocolError` (carrying the buffer); but a bulk-string
or array frame whose length/count line does not parse as a Python int raises
the built-in `ValueError` from `int()`, not a protocol error. -/
theorem C5_amended_parse_errors :
    (∀ (data : List Nat) (stream : List (List Nat)) (i fuel : Nat),
      findCRLF data = some i → knownPrefixB (data.headD 0) = false →
      parseF (fuel + 1) data stream = .err (.protocolError data)) ∧
    (∀ (line rest : List Nat) (stream : List (List Nat)) (fuel : Nat),
      findCRLF line = none → pyInt line = none →
      parseF (fuel + 1) (36 :: (line ++ 13 :: 10 :: rest)) stream = .err .valueError ∧
      parseF (fuel + 1) (42 :: (line ++ 13 :: 10 :: rest)) stream = .err .valueError) := by
  constructor
  · intro data stream i fuel hf hp
    exact run_unknown fuel stream hf hp
  · intro line rest stream fuel hcr hpy
    exact ⟨run_bulk_bad fuel line rest stream hcr hpy,
           run_arr_bad fuel line rest stream hcr hpy⟩

/-- C5 witness: the unknown-prefix half at `"hello\r\n"` and the malformed-
length half at length line `"x"`. -/
theorem C5_amended_parse_errors_witness :
    (findCRLF (strB "hello\r\n") = some 5 ∧
      knownPrefixB ((strB "hello\r\n").headD 0) = false ∧
      parseF 1 (strB "hello\r\n") [] = .err (.protocolError (strB "hello\r\n"))) ∧
    (findCRLF (strB "x") = none ∧ pyInt (strB "x") = none ∧
      parseF 1 (36 :: (strB "x" ++ 13 :: 10 :: [])) [] = .err .valueError ∧
      parseF 1 (42 :: (strB "x" ++ 13 :: 10 :: [])) [] = .err .valueError) :=
  ⟨⟨rfl, rfl, C5_amended_parse_errors.1 (strB "hello\r\n") [] 5 0 rfl rfl⟩,
   ⟨rfl, rfl,
    (C5_amended_parse_errors.2 (strB "x") [] [] 0 rfl rfl).1,
    (C5_amended_parse_errors.2 (strB "x") [] [] 0 rfl rfl).2⟩⟩

/-- C6 counterexample: the error line `-ERRX\r\n` does not carry the token
`"ERR "` (no trailing space), so by the claim it should surface the full
text `"ERRX"`; the code tests `startswith("ERR")` and strips 4 characters,
surfacing the empty message instead. -/
theorem C6_counterexample :
    parseF 1 (strB "-ERRX\r\n") [] = .err (.responseError []) ∧
    PErr.responseError [] ≠ .responseError (strB "ERRX") := by
  refine ⟨rfl, ?_⟩
  intro h
  injection h with h'
  exact absurd h' (by decide)

/-- C6 amended: for an (ascii-decodable) error line `-text\r\n`: if `text`
starts with `"WRONGTYPE"` — trailing space **not** required — the first 10
characters are dropped and a `ResponseTypeError` carries the remainder;
else if it starts with `"ERR"` the first 4 characters are dropped and a
`ResponseError` carries the remainder; otherwise a `ResponseError` carries
the full text.  (This agrees with the original claim exactly when the token
occurrences include their trailing space.) -/
theorem C6_amended_error_classification :
    ∀ (t rest : List Nat) (stream : List (List Nat)) (fuel : Nat),
      findCRLF t = none → t.all (fun c => c < 128) = true →
      parseF (fuel + 1) (45 :: (t ++ 13 :: 10 :: rest)) stream =
        .err (if wrongtypeTok.isPrefixOf t then .responseTypeError (t.drop 10)
              else if errTok.isPrefixOf t then .responseError (t.drop 4)
              else .responseError t) := by
  intro t rest stream fuel hcr hascii
  rw [show parseF (fuel + 1) (45 :: (t ++ 13 :: 10 :: rest)) stream =
    run (fuel + 1) (.pc (45 :: (t ++ 13 :: 10 :: rest)) stream) from rfl]
  rw [run_error_line fuel t rest stream hcr]
  simp [classifyError, hascii]

/-- C6 witness: instantiating the amended classification at the three
shapes `"WRONGTYPE not a list"`, `"ERR bad thing"` and `"oops"`. -/
theorem C6_amended_error_classification_witness :
    (findCRLF (strB "WRONGTYPE not a list") = none ∧
      (strB "WRONGTYPE not a list").all (fun c => c < 128) = true ∧
      parseF 1 (45 :: (strB "WRONGTYPE not a list" ++ 13 :: 10 :: [])) [] =
        .err (.responseTypeError (strB "not a list"))) ∧
    (parseF 1 (45 :: (strB "ERR bad thing" ++ 13 :: 10 :: [])) [] =
      .err (.responseError (strB "bad thing"))) ∧
    (parseF 1 (45 :: (strB "oops" ++ 13 :: 10 :: [])) [] =
      .err (.responseError (strB "oops"))) := by
  refine ⟨⟨rfl, rfl, ?_⟩, ?_, ?_⟩
  · have := C6_amended_error_classification (strB "WRONGTYPE not a list") [] [] 0 rfl rfl
    rw [this]
    rfl
  · have := C6_amended_error_classification (strB "ERR bad thing") [] [] 0 rfl rfl
    rw [this]
    rfl
  · have := C6_amended_error_classification (strB "oops") [] [] 0 rfl rfl
    rw [this]
    rfl

/-- C8: bulk-string frames `$n\r\n...`: a length line denoting `-1` yields
the null value with the bytes after the length line as remainder; a
non-negative `n` with fewer than `n + 2` bytes after the length line yields
`ReadMore`; otherwise the payload is exactly the next `n` bytes, the two
following bytes are discarded and the remainder starts after them — and the
`n = 0` payload is the empty bytes value, distinct from null. -/
theorem C8_bulk_frames :
    ∀ (line tail : List Nat) (stream : List (List Nat)) (fuel : Nat),
      findCRLF line = none →
      ((pyInt line = some (-1) →
        parseF (fuel + 1) (36 :: (line ++ 13 :: 10 :: tail)) stream =
          .ok .nullV tail stream) ∧
       (∀ n : Nat, pyInt line = some (n : Int) →
        ((tail.length < n + 2 →
          parseF (fuel + 1) (36 :: (line ++ 13 :: 10 :: tail)) stream = .readMore) ∧
         (n + 2 ≤ tail.length →
          parseF (fuel + 1) (36 :: (line ++ 13 :: 10 :: tail)) stream =
            .ok (.bytesV (tail.take n)) (tail.drop (n + 2)) stream))) ∧
       RValue.bytesV [] ≠ RValue.nullV) := by
  intro line tail stream fuel hcr
  refine ⟨?_, ?_, by intro h; cases h⟩
  · intro hpy
    exact run_bulk_null fuel line tail stream hcr hpy
  · intro n hpy
    constructor
    · intro hshort
      apply run_bulk_short fuel line tail stream hcr hpy (by omega)
      push_cast
      omega
    · intro hlong
      have hge : ¬ ((tail.length : Int) < (n : Int) + 2) := by push_cast; omega
      rw [show parseF (fuel + 1) (36 :: (line ++ 13 :: 10 :: tail)) stream =
        run (fuel + 1) (.pc (36 :: (line ++ 13 :: 10 :: tail)) stream) from rfl]
      rw [run_bulk_ok fuel line tail stream hcr hpy (by omega) hge]
      rw [pySliceTo_natCast]
      have : ((n : Int) + 2) = ((n + 2 : Nat) : Int) := by push_cast; ring
      rw [this, pySliceFrom_natCast]

/-- C8 witness: `$3\r\nabc\r\n`, the truncated `$5\r\nab`, the empty-but-
non-null `$0\r\n\r\n` and the null `$-1\r\n`. -/
theorem C8_bulk_frames_witness :
    (findCRLF (strB "3") = none ∧ pyInt (strB "3") = some ((3 : Nat) : Int) ∧
      parseF 1 (36 :: (strB "3" ++ 13 :: 10 :: strB "abc\r\n")) [] =
        .ok (.bytesV (strB "abc")) [] []) ∧
    (pyInt (strB "5") = some ((5 : Nat) : Int) ∧
      parseF 1 (36 :: (strB "5" ++ 13 :: 10 :: strB "ab")) [] = .readMore) ∧
    (pyInt (strB "0") = some ((0 : Nat) : Int) ∧
      parseF 1 (36 :: (strB "0" ++ 13 :: 10 :: strB "\r\n")) [] =
        .ok (.bytesV []) [] []) ∧
    (pyInt (strB "-1") = some (-1) ∧
      parseF 1 (36 :: (strB "-1" ++ 13 :: 10 :: strB "rest")) [] =
        .ok .nullV (strB "rest") []) ∧
    RValue.bytesV [] ≠ RValue.nullV := by
  refine ⟨⟨rfl, rfl, ?_⟩, ⟨rfl, ?_⟩, ⟨rfl, ?_⟩, ⟨rfl, ?_⟩, ?_⟩
  · have := (((C8_bulk_frames (strB "3") (strB "abc\r\n") [] 0 rfl).2.1 3 rfl).2) (by decide)
    rw [this]
    rfl
  · exact ((C8_bulk_frames (strB "5") (strB "ab") [] 0 rfl).2.1 5 rfl).1 (by decide)
  · have := (((C8_bulk_frames (strB "0") (strB "\r\n") [] 0 rfl).2.1 0 rfl).2) (by decide)
    rw [this]
    rfl
  · exact (C8_bulk_frames (strB "-1") (strB "rest") [] 0 rfl).1 rfl
  · exact (C8_bulk_frames [] [] [] 0 rfl).2.2

/-- C10 counterexample: on `$-2\r\nXYZ` `parse` succeeds (no more data
requested) with value `X` and remainder `XYZ`; appending the suffix `W`
changes the decoded value to `XY` (Python's negative slicing reads from the
end of the buffer), so the decoded value does not depend only on the
consumed prefix. -/
theorem C10_counterexample :
    parseF 2 (strB "$-2\r\nXYZ") [] = .ok (.bytesV [88]) (strB "XYZ") [] ∧
    parseF 2 (strB "$-2\r\nXYZ" ++ [87]) [] =
      .ok (.bytesV [88, 89]) (strB "XYZW") [] ∧
    RValue.bytesV [88] ≠ RValue.bytesV [88, 89] := by
  refine ⟨rfl, rfl, ?_⟩
  intro h
  injection h with h'
  exact absurd h' (by decide)

/-- C10 amended: prefix monotonicity holds for every buffer that is a
well-formed frame encoding followed by a remainder — every bulk/array
length line denotes `-1` or the true payload length/element count — where
parse returns the frame's value and exactly the trailing bytes, and
appending any suffix leaves the value unchanged and extends the remainder;
it fails in general for bulk lengths `≤ -2` (Python negative slicing). -/
theorem C10_amended_monotone :
    ∀ (f : Frame) (r s : List Nat), wfB f = true →
      (∃ n, parseF n (encode f ++ r) [] = .ok (pyVal f) r []) ∧
      (∃ n, parseF n ((encode f ++ r) ++ s) [] = .ok (pyVal f) (r ++ s) []) := by
  intro f r s hwf
  constructor
  · exact decode_encode f hwf r []
  · have := decode_encode f hwf (r ++ s) []
    rwa [← List.append_assoc] at this

/-- C10 witness: the status frame `+A\r\n` with remainder `Z` and suffix
`W`. -/
theorem C10_amended_monotone_witness :
    wfB (Frame.statusF [65]) = true ∧
    (∃ n, parseF n (encode (Frame.statusF [65]) ++ [90]) [] =
      .ok (pyVal (Frame.statusF [65])) [90] []) ∧
    (∃ n, parseF n ((encode (Frame.statusF [65]) ++ [90]) ++ [87]) [] =
      .ok (pyVal (Frame.statusF [65])) ([90] ++ [87]) []) :=
  ⟨rfl, (C10_amended_monotone (Frame.statusF [65]) [90] [87] rfl).1,
        (C10_amended_monotone (Frame.statusF [65]) [90] [87] rfl).2⟩


/-- C1 counterexample: one socket read delivers `+A\r\n+B\r\n`; the first
`process_response` decodes `A` but discards the trailing `+B\r\n`
(`item, _ = await self.parse(data)`), and the next call starts from a fresh
read, decoding `C` — the frame `B` is lost, not decoded next. -/
theorem C1_counterexample :
    processResponse 3 [strB "+A\r\n+B\r\n", strB "+C\r\n"] =
      .ok (.bytesV [65]) [strB "+C\r\n"] ∧
    processResponse 3 [strB "+C\r\n"] = .ok (.bytesV [67]) [] ∧
    RValue.bytesV [67] ≠ RValue.bytesV [66] := by
  refine ⟨rfl, rfl, ?_⟩
  intro h
  injection h with h'
  exact absurd h' (by decide)

/-- C1 amended: within one `process_response` call the buffer grows by
appending each further socket read (no loss or reordering inside the call),
but on a successful decode the unconsumed remainder returned by `parse` is
discarded rather than kept for the next call. -/
theorem C1_amended_receive :
    (∀ (fuel : Nat) (data c : List Nat) (rest : List (List Nat)),
      parseF fuel data (c :: rest) = .readMore →
      processLoop (fuel + 1) data (c :: rest) = processLoop fuel (data ++ c) rest) ∧
    (∀ (fuel : Nat) (data : List Nat) (stream : List (List Nat)) (v : RValue)
        (rem : List Nat) (s' : List (List Nat)),
      parseF fuel data stream = .ok v rem s' →
      processLoop (fuel + 1) data stream = .ok v s') :=
  ⟨fun fuel _ c rest h => processLoop_more fuel c rest h,
   fun fuel _ _ _ _ _ h => processLoop_ok fuel h⟩

/-- C1 witness: the retry equation at the split status line `+A` / `\r\n`,
and the discarding equation at `+A\r\n+B\r\n`. -/
theorem C1_amended_receive_witness :
    (parseF 1 (strB "+A") [strB "\r\n"] = .readMore ∧
      processLoop 2 (strB "+A") [strB "\r\n"] =
        processLoop 1 (strB "+A" ++ strB "\r\n") []) ∧
    (parseF 1 (strB "+A\r\n+B\r\n") [] = .ok (.bytesV [65]) (strB "+B\r\n") [] ∧
      processLoop 2 (strB "+A\r\n+B\r\n") [] = .ok (.bytesV [65]) []) :=
  ⟨⟨rfl, C1_amended_receive.1 1 (strB "+A") (strB "\r\n") [] rfl⟩,
   ⟨rfl, C1_amended_receive.2 1 (strB "+A\r\n+B\r\n") [] (.bytesV [65]) (strB "+B\r\n") [] rfl⟩⟩

/-- C2 counterexample: the parser is **not** stateless between retries.  On
the reads `*2\r\n$-2\r\n:1` then `\r\n`, the implementation keeps the first
decoded element (the empty payload from the `$-2` frame, sliced from the
short buffer) and retries only the second element, yielding
`[b"", 1]`; the specification's stateless restart re-parses the whole array
from the accumulated buffer and yields `[b":1", 1]`. -/
theorem C2_counterexample :
    processResponse 9 [strB "*2\r\n$-2\r\n:1", strB "\r\n"] =
      .ok (.arrV [.bytesV [], .intV 1]) [] ∧
    receiveReplySpec 9 [strB "*2\r\n$-2\r\n:1", strB "\r\n"] =
      .ok (.arrV [.bytesV [58, 49], .intV 1]) [] ∧
    RValue.arrV [.bytesV [], .intV 1] ≠ RValue.arrV [.bytesV [58, 49], .intV 1] := by
  refine ⟨rfl, rfl, ?_⟩
  intro h
  injection h with h'
  injection h' with h1 h2
  injection h1 with h0
  exact absurd h0 (by decide)

/-- C2 amended: when an element parse inside `parse_array` signals
`ReadMore`, the already-decoded elements and the current buffer position are
kept and only the incomplete element is retried after one more socket read;
nevertheless, for every well-formed array frame and every split point of its
byte encoding into two reads, the decoded value equals the decode of the
complete encoding. -/
theorem C2_amended_array_parsing :
    (∀ (fuel : Nat) (len : Int) (items : List RValue) (data c : List Nat)
        (rest : List (List Nat)), data ≠ [] → (items.length : Int) < len →
      parseF fuel data (c :: rest) = .readMore →
      parseArrayLoop (fuel + 1) len items data (c :: rest) =
        parseArrayLoop fuel len items (data ++ c) rest) ∧
    (∀ (f : Frame) (k : Nat), wfB f = true → k ≤ (encode f).length →
      ∃ n s', processResponse n [(encode f).take k, (encode f).drop k] =
        .ok (pyVal f) s') :=
  ⟨fun fuel len items d c rest hne hlt h => run_ac_more fuel len items d c rest hne hlt h,
   fun f k hwf hk => split_decode f hwf k hk⟩

/-- C2 witness: the keep-progress equation with one element already decoded
and the incomplete `+b` element, and the split theorem on the array
`*2\r\n+a\r\n+b\r\n` cut in the middle of its second element. -/
theorem C2_amended_array_parsing_witness :
    (strB "+b" ≠ [] ∧ (([RValue.bytesV [97]].length : Int) < 2) ∧
      parseF 1 (strB "+b") [strB "\r\n"] = .readMore ∧
      parseArrayLoop 2 2 [RValue.bytesV [97]] (strB "+b") [strB "\r\n"] =
        parseArrayLoop 1 2 [RValue.bytesV [97]] (strB "+b" ++ strB "\r\n") []) ∧
    (wfB (Frame.arrF [50] [.statusF [97], .statusF [98]]) = true ∧
      6 ≤ (encode (Frame.arrF [50] [.statusF [97], .statusF [98]])).length ∧
      ∃ n s', processResponse n
        [(encode (Frame.arrF [50] [.statusF [97], .statusF [98]])).take 6,
         (encode (Frame.arrF [50] [.statusF [97], .statusF [98]])).drop 6] =
        .ok (pyVal (Frame.arrF [50] [.statusF [97], .statusF [98]])) s') :=
  ⟨⟨by decide, by decide, rfl,
    C2_amended_array_parsing.1 1 2 [RValue.bytesV [97]] (strB "+b") (strB "\r\n") []
      (by decide) (by decide) rfl⟩,
   ⟨rfl, by decide,
    C2_amended_array_parsing.2 (Frame.arrF [50] [.statusF [97], .statusF [98]]) 6
      rfl (by decide)⟩⟩

end RedisTrio
